import Mathlib

/-!
Verification of the Kodi UDP event server (`xbmc/network/EventServer.cpp`)
against its natural-language specification.

The server state and its operations (`ProcessPacket`, `RefreshClients`,
`ProcessEvents`, `ExecuteNextAction`, `Run`, `StartServer`) are shallowly
embedded below.  The client map `std::map<unsigned long, CEventClient*>` is
modelled as an association list sorted by key (`std::map` iterates in key
order); machine integers become `Nat`/`Int`.  Collaborator classes that live
in other files of the repository (`CEventPacket`, `CEventClient`, the socket
layer) are modelled from the specification, each marked in its doc comment.
-/

namespace EventServer

/-- Action type tag `AT_EXEC_BUILTIN` ("run a named builtin command"). -/
def AT_EXEC_BUILTIN : Nat := 1

/-- Action type tag `AT_BUTTON` ("inject a translated button action"). -/
def AT_BUTTON : Nat := 2

/-- `CEventAction`: an action descriptor popped from a client's action queue
(`actionType` is a byte in the source, so values other than the two known
tags are representable). -/
structure CEventAction where
  actionType : Nat
  actionName : String
  deriving Repr, DecidableEq

/-- A parsed datagram, as far as `CEventServer::ProcessPacket` looks at it:
`valid` models `CEventPacket::IsValid()` and `clientToken` models
`CEventPacket::ClientToken()` (a 32-bit value, `0` meaning "no token").
`payload` stands for the rest of the packet, opaque to the server. -/
structure Packet where
  valid : Bool
  clientToken : Nat
  payload : Nat
  deriving Repr, DecidableEq

/-- Modelled from the spec: a `CEventClient` session — remote address
(already reduced to its `ULong` form), last-activity timestamp, inbound
packet queue, derived action queue, and a ghost counter recording how many
times `RefreshSettings` has been applied to it.  `CEventClient` itself lives
in `EventClient.cpp`, which is not part of this repository snapshot. -/
structure CEventClient where
  addr : Nat
  lastSeen : Nat
  packets : List Packet
  actions : List CEventAction
  refreshCount : Nat
  deriving Repr, DecidableEq

/-- Modelled from the spec: a freshly constructed `CEventClient(addr)`;
its creation counts as activity at the current time and both queues start
empty. -/
def newClient (addr now : Nat) : CEventClient :=
  { addr := addr, lastSeen := now, packets := [], actions := [], refreshCount := 0 }

/-- Modelled from the spec: `CEventClient::AddPacket` appends the packet to
the session's packet queue and updates the last-activity timestamp
(`enqueuePacket(packet)`: appends to the packet queue; updates last-activity
timestamp). -/
def addPacket (c : CEventClient) (p : Packet) (now : Nat) : CEventClient :=
  { c with packets := c.packets ++ [p], lastSeen := now }

/-- Modelled from the spec: `CEventClient::Alive()` is true iff
`now - lastActivity < livenessWindow`. -/
def clientAlive (c : CEventClient) (now window : Nat) : Bool :=
  decide (now - c.lastSeen < window)

/-- Modelled from the spec: `CEventClient::RefreshSettings` pushes updated
configuration into the session; we record only that it happened, via the
ghost counter. -/
def refreshSettingsClient (c : CEventClient) : CEventClient :=
  { c with refreshCount := c.refreshCount + 1 }

/-- Modelled from the spec: `CEventClient::GetNextAction` pops and returns
the oldest pending action, or nothing if the action queue is empty. -/
def popAction (c : CEventClient) : Option (CEventAction × CEventClient) :=
  match c.actions with
  | [] => none
  | a :: rest => some (a, { c with actions := rest })

/-- Modelled from the spec: `CEventClient::ProcessEvents` drains the packet
queue, decoding each payload into zero or more actions appended to the
action queue, in arrival order.  The decoding itself (`conv`) is an external
collaborator. -/
def processEventsClient (conv : Packet → List CEventAction) (c : CEventClient) : CEventClient :=
  { c with packets := [], actions := c.actions ++ c.packets.flatMap conv }

/-- The client registry `std::map<unsigned long, CEventClient*>`, as an
association list sorted by key. -/
abbrev ClientMap := List (Nat × CEventClient)

/-- `m_clients.find(k)`: first value bound to key `k`. -/
def mapFind (m : ClientMap) (k : Nat) : Option CEventClient :=
  match m with
  | [] => none
  | (k1, v) :: rest => if k1 = k then some v else mapFind rest k

/-- `m_clients[k] = v` on a fresh key: insert at the sorted position
(`std::map` keeps keys ordered); an existing binding is replaced. -/
def mapInsert (m : ClientMap) (k : Nat) (v : CEventClient) : ClientMap :=
  match m with
  | [] => [(k, v)]
  | (k1, v1) :: rest =>
    if k < k1 then (k, v) :: (k1, v1) :: rest
    else if k = k1 then (k, v) :: rest
    else (k1, v1) :: mapInsert rest k v

/-- In-place mutation of the value bound to `k` (such as
`m_clients[clientToken]->AddPacket(packet)`). -/
def mapUpdate (m : ClientMap) (k : Nat) (f : CEventClient → CEventClient) : ClientMap :=
  match m with
  | [] => []
  | (k1, v1) :: rest => if k1 = k then (k1, f v1) :: rest else (k1, v1) :: mapUpdate rest k f

/-- The state of `CEventServer` that the verified operations touch. -/
structure ServerState where
  clients : ClientMap
  iMaxClients : Nat
  bRefreshSettings : Bool
  livenessWindow : Nat
  pSocket : Option Unit
  pPacketBuffer : Option Unit
  deriving Repr, DecidableEq

/-- The routing-token derivation of `ProcessPacket` (lines 245-247):
`clientToken = packet->ClientToken(); if (!clientToken) clientToken =
addr.ULong();`.  The sender address is modelled directly as its `ULong`
value. -/
def routingToken (p : Packet) (addrULong : Nat) : Nat :=
  if p.clientToken = 0 then addrULong else p.clientToken

/-- `CEventServer::ProcessPacket(addr, pSize)`: drop invalid packets;
derive the routing token; under the lock, look the token up; on a miss
enforce the `maxClients` capacity bound and create a session; finally append
the packet to the session at the token. -/
def processPacket (s : ServerState) (addr : Nat) (p : Packet) (now : Nat) : ServerState :=
  if p.valid = false then s
  else
    let clientToken := routingToken p addr
    match mapFind s.clients clientToken with
    | none =>
      if s.iMaxClients ≤ s.clients.length then s
      else
        let clients1 := mapInsert s.clients clientToken (newClient addr now)
        { s with clients := mapUpdate clients1 clientToken (fun c => addPacket c p now) }
    | some _ =>
      { s with clients := mapUpdate s.clients clientToken (fun c => addPacket c p now) }

/- ### Basic association-map lemmas -/

theorem mapFind_mapInsert_self (m : ClientMap) (k : Nat) (v : CEventClient) :
    mapFind (mapInsert m k v) k = some v := by
  induction m with
  | nil => simp [mapInsert, mapFind]
  | cons hd tl ih =>
    obtain ⟨k1, v1⟩ := hd
    by_cases h1 : k < k1
    · simp [mapInsert, mapFind, h1]
    · by_cases h2 : k = k1
      · simp [mapInsert, mapFind, h1, h2]
      · have : k1 ≠ k := fun h => h2 h.symm
        simp [mapInsert, mapFind, h1, h2, this, ih]

theorem mapFind_mapInsert_ne (m : ClientMap) (k k2 : Nat) (v : CEventClient)
    (hne : k ≠ k2) : mapFind (mapInsert m k v) k2 = mapFind m k2 := by
  induction m with
  | nil => simp [mapInsert, mapFind, hne]
  | cons hd tl ih =>
    obtain ⟨k1, v1⟩ := hd
    by_cases h1 : k < k1
    · simp [mapInsert, mapFind, h1, hne]
    · by_cases h2 : k = k1
      · subst h2
        simp [mapInsert, mapFind, h1, hne]
      · simp [mapInsert, mapFind, h1, h2, ih]

theorem mapFind_mapUpdate_self (m : ClientMap) (k : Nat) (f : CEventClient → CEventClient)
    (c : CEventClient) (h : mapFind m k = some c) :
    mapFind (mapUpdate m k f) k = some (f c) := by
  induction m with
  | nil => simp [mapFind] at h
  | cons hd tl ih =>
    obtain ⟨k1, v1⟩ := hd
    by_cases h1 : k1 = k
    · subst h1
      simp [mapFind] at h
      simp [mapUpdate, mapFind, h]
    · simp [mapFind, h1] at h
      simp [mapUpdate, mapFind, h1, ih h]

theorem mapFind_mapUpdate_ne (m : ClientMap) (k k2 : Nat) (f : CEventClient → CEventClient)
    (hne : k ≠ k2) : mapFind (mapUpdate m k f) k2 = mapFind m k2 := by
  induction m with
  | nil => simp [mapUpdate, mapFind]
  | cons hd tl ih =>
    obtain ⟨k1, v1⟩ := hd
    by_cases h1 : k1 = k
    · subst h1
      simp [mapUpdate, mapFind, hne]
    · by_cases h2 : k1 = k2
      · subst h2
        simp [mapUpdate, mapFind, h1, mapFind]
      · simp [mapUpdate, mapFind, h1, h2, ih]

/- ### Sample inputs used by the witness theorems -/

/-- A small server state: no clients yet, capacity 2. -/
def sampleState : ServerState :=
  { clients := [], iMaxClients := 2, bRefreshSettings := false, livenessWindow := 60,
    pSocket := none, pPacketBuffer := none }

/-- A valid packet carrying the non-zero client token 7. -/
def samplePacket : Packet := { valid := true, clientToken := 7, payload := 0 }

/-- A valid packet with client token 0 (identity must come from the sender
address). -/
def tokenlessPacket : Packet := { valid := true, clientToken := 0, payload := 1 }

/-- An invalid packet (bad signature). -/
def invalidPacket : Packet := { valid := false, clientToken := 7, payload := 2 }

/- ### Branch characterizations of ProcessPacket -/

theorem processPacket_eq_existing (s : ServerState) (addr : Nat) (p : Packet) (now : Nat)
    (c0 : CEventClient) (hvalid : p.valid = true)
    (hfind : mapFind s.clients (routingToken p addr) = some c0) :
    processPacket s addr p now =
      { s with clients := (mapUpdate s.clients (routingToken p addr)
          (fun c => addPacket c p now)) } := by
  simp [processPacket, hvalid, hfind]

theorem processPacket_eq_new (s : ServerState) (addr : Nat) (p : Packet) (now : Nat)
    (hvalid : p.valid = true)
    (hfind : mapFind s.clients (routingToken p addr) = none)
    (hcap : ¬ s.iMaxClients ≤ s.clients.length) :
    processPacket s addr p now =
      { s with clients :=
          (mapUpdate (mapInsert s.clients (routingToken p addr) (newClient addr now))
            (routingToken p addr) (fun c => addPacket c p now)) } := by
  simp [processPacket, hvalid, hfind, hcap]

theorem processPacket_eq_full (s : ServerState) (addr : Nat) (p : Packet) (now : Nat)
    (hvalid : p.valid = true)
    (hfind : mapFind s.clients (routingToken p addr) = none)
    (hcap : s.iMaxClients ≤ s.clients.length) :
    processPacket s addr p now = s := by
  simp [processPacket, hvalid, hfind, hcap]

/- ### C1 — admission control in ProcessPacket -/

/-- C1: after `ProcessPacket` routes a valid packet under token `T`: if the
client count is strictly below `m_iMaxClients`, a session for `T` exists
afterwards and the packet is appended to that session's packet queue; if the
count equals `m_iMaxClients` and no session for `T` exists, no session is
created, the packet is discarded and the client map is unchanged. -/
theorem processPacket_admission (s : ServerState) (addr : Nat) (p : Packet) (now : Nat)
    (hvalid : p.valid = true) :
    (s.clients.length < s.iMaxClients →
      ∃ c, mapFind (processPacket s addr p now).clients (routingToken p addr) = some c ∧
        c.packets = (match mapFind s.clients (routingToken p addr) with
                     | some c0 => c0.packets
                     | none => []) ++ [p]) ∧
    (s.clients.length = s.iMaxClients → mapFind s.clients (routingToken p addr) = none →
      (processPacket s addr p now).clients = s.clients ∧
      mapFind (processPacket s addr p now).clients (routingToken p addr) = none) := by
  constructor
  · intro hlt
    cases hfind : mapFind s.clients (routingToken p addr) with
    | none =>
      have hcap : ¬ s.iMaxClients ≤ s.clients.length := Nat.not_le.mpr hlt
      refine ⟨addPacket (newClient addr now) p now, ?_, ?_⟩
      · rw [processPacket_eq_new s addr p now hvalid hfind hcap]
        exact mapFind_mapUpdate_self _ _ _ _
          (mapFind_mapInsert_self s.clients (routingToken p addr) (newClient addr now))
      · simp [addPacket, newClient]
    | some c0 =>
      refine ⟨addPacket c0 p now, ?_, ?_⟩
      · rw [processPacket_eq_existing s addr p now c0 hvalid hfind]
        exact mapFind_mapUpdate_self _ _ _ _ hfind
      · simp [addPacket]
  · intro heq hfind
    have hcap : s.iMaxClients ≤ s.clients.length := Nat.le_of_eq heq.symm
    rw [processPacket_eq_full s addr p now hvalid hfind hcap]
    exact ⟨rfl, hfind⟩

/-- Witness for C1 at a concrete input: capacity 2, empty registry, a valid
token-7 packet gets a fresh session holding exactly that packet. -/
theorem processPacket_admission_witness :
    ∃ c, mapFind (processPacket sampleState 5 samplePacket 100).clients
        (routingToken samplePacket 5) = some c ∧ c.packets = [samplePacket] := by
  have h := (processPacket_admission sampleState 5 samplePacket 100 rfl).1 (by decide)
  simpa [sampleState, mapFind] using h

/- ### C4 — routing-token derivation -/

/-- C4: a zero client token falls back to the sender-address-derived token,
so two valid datagrams with token 0 from the same address share a routing
token (hence a session); two valid datagrams carrying distinct non-zero
tokens route to distinct tokens (hence distinct sessions); and routing a
packet touches no map entry other than the one at its routing token. -/
theorem routingToken_identity (addrU : Nat) (p1 p2 : Packet) (s : ServerState) (now : Nat) :
    (p1.clientToken = 0 → p2.clientToken = 0 →
      routingToken p1 addrU = routingToken p2 addrU) ∧
    (p1.clientToken ≠ 0 → p2.clientToken ≠ 0 → p1.clientToken ≠ p2.clientToken →
      routingToken p1 addrU ≠ routingToken p2 addrU) ∧
    (∀ k, k ≠ routingToken p1 addrU →
      mapFind (processPacket s addrU p1 now).clients k = mapFind s.clients k) := by
  refine ⟨?_, ?_, ?_⟩
  · intro h1 h2
    simp [routingToken, h1, h2]
  · intro h1 h2 hne
    simp [routingToken, h1, h2, hne]
  · intro k hk
    by_cases hv : p1.valid = false
    · simp [processPacket, hv]
    · have hv2 : p1.valid = true := by
        cases h : p1.valid with
        | false => exact absurd h hv
        | true => rfl
      cases hfind : mapFind s.clients (routingToken p1 addrU) with
      | none =>
        by_cases hcap : s.iMaxClients ≤ s.clients.length
        · rw [processPacket_eq_full s addrU p1 now hv2 hfind hcap]
        · rw [processPacket_eq_new s addrU p1 now hv2 hfind hcap]
          rw [mapFind_mapUpdate_ne _ _ _ _ (fun h => hk h.symm),
              mapFind_mapInsert_ne _ _ _ _ (fun h => hk h.symm)]
      | some c0 =>
        rw [processPacket_eq_existing s addrU p1 now c0 hv2 hfind]
        exact mapFind_mapUpdate_ne _ _ _ _ (fun h => hk h.symm)

/-- Witness for C4 at concrete inputs: two token-0 packets from address 5
share a routing token; tokens 7 and 9 from the same address differ; and
routing the token-7 packet leaves the entry at key 3 untouched. -/
theorem routingToken_identity_witness :
    routingToken tokenlessPacket 5 =
      routingToken { valid := true, clientToken := 0, payload := 9 } 5 ∧
    routingToken samplePacket 5 ≠
      routingToken { valid := true, clientToken := 9, payload := 0 } 5 ∧
    mapFind (processPacket sampleState 5 samplePacket 100).clients 3 =
      mapFind sampleState.clients 3 := by
  refine ⟨?_, ?_, ?_⟩
  · exact (routingToken_identity 5 tokenlessPacket
      { valid := true, clientToken := 0, payload := 9 } sampleState 100).1 rfl rfl
  · exact (routingToken_identity 5 samplePacket
      { valid := true, clientToken := 9, payload := 0 } sampleState 100).2.1
      (by decide) (by decide) (by decide)
  · exact (routingToken_identity 5 samplePacket samplePacket sampleState 100).2.2 3 (by decide)

/- ### C5 — invalid packets are discarded before touching the registry -/

/-- C5: a datagram that parses to an invalid packet leaves the whole server
state (in particular the session map) unchanged: no session is created and
the packet reaches no session queue. -/
theorem processPacket_invalid (s : ServerState) (addr : Nat) (p : Packet) (now : Nat)
    (h : p.valid = false) : processPacket s addr p now = s := by
  simp [processPacket, h]

/-- Witness for C5: the concrete invalid packet leaves the sample state
unchanged. -/
theorem processPacket_invalid_witness :
    processPacket sampleState 5 invalidPacket 100 = sampleState :=
  processPacket_invalid sampleState 5 invalidPacket 100 rfl

/- ### ExecuteNextAction -/

/-- Observable events of `CEventServer::ExecuteNextAction`: operations on
the registry lock `m_critSection` (`CSingleLock` acquisition, `Leave`, and
the destructor release) and the two external execution steps
(`CBuiltins::Execute` and `g_application.OnAction`). -/
inductive ESEvent where
  | lockAcquire
  | lockRelease
  | execBuiltin (name : String)
  | execButton (name : String)
  deriving Repr, DecidableEq

/-- Whether an event is one of the external execution steps. -/
def ESEvent.isExec : ESEvent → Bool
  | execBuiltin _ => true
  | execButton _ => true
  | _ => false

/-- Net lock depth after a trace (acquire = +1, release = -1). -/
def lockDepth (t : List ESEvent) : Int :=
  t.foldl (fun d e =>
    match e with
    | ESEvent.lockAcquire => d + 1
    | ESEvent.lockRelease => d - 1
    | _ => d) 0

/-- Number of external execution steps in a trace. -/
def numExecEvents (t : List ESEvent) : Nat :=
  t.countP ESEvent.isExec

/-- The client-scan loop of `ExecuteNextAction`: walk the map in iteration
order, calling `GetNextAction` on each client; the first client with a
pending action has it popped, and the scan stops there. -/
def scanClients : ClientMap → Option (CEventAction × ClientMap)
  | [] => none
  | (k, c) :: rest =>
    match popAction c with
    | some (a, c2) => some (a, (k, c2) :: rest)
    | none =>
      match scanClients rest with
      | some (a, rest2) => some (a, (k, c) :: rest2)
      | none => none

/-- The `switch (actionEvent.actionType)` of `ExecuteNextAction`, run after
`lock.Leave()`.  `builtinExec` and `buttonExec` are the external executors
(`CBuiltins::Execute(name) == 0` resp. `g_application.OnAction(...)`);
`ret` was initialized to `true`, so an action of any other type leaves it
`true` and performs no external call. -/
def executeAction (builtinExec buttonExec : String → Bool) (a : CEventAction) :
    Bool × List ESEvent :=
  if a.actionType = AT_EXEC_BUILTIN then
    (builtinExec a.actionName, [ESEvent.execBuiltin a.actionName])
  else if a.actionType = AT_BUTTON then
    (buttonExec a.actionName, [ESEvent.execButton a.actionName])
  else (true, [])

/-- `CEventServer::ExecuteNextAction()`: take the lock, scan for the first
client with a pending action; if found, leave the lock, execute the action,
and return the executor's verdict; otherwise fall off the loop and return
`false` (the `CSingleLock` destructor releases the lock).  Returns the
result, the new state, and the event trace. -/
def executeNextAction (builtinExec buttonExec : String → Bool) (s : ServerState) :
    Bool × ServerState × List ESEvent :=
  match scanClients s.clients with
  | none => (false, s, [ESEvent.lockAcquire, ESEvent.lockRelease])
  | some (a, clients2) =>
    let r := executeAction builtinExec buttonExec a
    (r.1, { s with clients := clients2 },
      [ESEvent.lockAcquire, ESEvent.lockRelease] ++ r.2)

/-- Total number of queued actions across all sessions. -/
def totalActions (m : ClientMap) : Nat :=
  (m.map (fun kc => kc.2.actions.length)).sum

/- ### Helper lemmas about the scan -/

theorem scanClients_of_all_empty (m : ClientMap)
    (h : ∀ kc ∈ m, kc.2.actions = []) : scanClients m = none := by
  induction m with
  | nil => rfl
  | cons hd tl ih =>
    obtain ⟨k, c⟩ := hd
    have hc : c.actions = [] := h (k, c) (List.mem_cons_self _ _)
    have htl : scanClients tl = none := ih (fun kc hkc => h kc (List.mem_cons_of_mem _ hkc))
    simp [scanClients, popAction, hc, htl]

theorem scanClients_totalActions (m : ClientMap) (a : CEventAction) (m2 : ClientMap)
    (h : scanClients m = some (a, m2)) : totalActions m2 + 1 = totalActions m := by
  induction m generalizing m2 with
  | nil => simp [scanClients] at h
  | cons hd tl ih =>
    obtain ⟨k, c⟩ := hd
    cases hpop : popAction c with
    | some pr =>
      obtain ⟨a1, c2⟩ := pr
      simp [scanClients, hpop] at h
      obtain ⟨ha, hm⟩ := h
      subst hm
      cases hacts : c.actions with
      | nil => simp [popAction, hacts] at hpop
      | cons x xs =>
        simp [popAction, hacts] at hpop
        obtain ⟨hx, hc2⟩ := hpop
        subst hc2
        simp [totalActions, hacts]
        ring
    | none =>
      cases hscan : scanClients tl with
      | none => simp [scanClients, hpop, hscan] at h
      | some pr =>
        obtain ⟨a1, rest2⟩ := pr
        simp [scanClients, hpop, hscan] at h
        obtain ⟨ha, hm⟩ := h
        subst hm
        have := ih rest2 (by rw [hscan, ha])
        simp [totalActions] at this ⊢
        omega

/-- Trace shape of `executeNextAction`: the lock acquire/release pair comes
first, and whatever follows is at most one external execution event. -/
theorem executeNextAction_trace_shape (be bu : String → Bool) (s : ServerState) :
    ∃ t3, (executeNextAction be bu s).2.2 =
        [ESEvent.lockAcquire, ESEvent.lockRelease] ++ t3 ∧
      (∀ e ∈ t3, e.isExec = true) ∧ t3.length ≤ 1 := by
  cases hscan : scanClients s.clients with
  | none => exact ⟨[], by simp [executeNextAction, hscan], by simp, by simp⟩
  | some pr =>
    obtain ⟨a, m2⟩ := pr
    by_cases h1 : a.actionType = AT_EXEC_BUILTIN
    · exact ⟨[ESEvent.execBuiltin a.actionName],
        by simp [executeNextAction, hscan, executeAction, h1],
        by simp [ESEvent.isExec], by simp⟩
    · by_cases h2 : a.actionType = AT_BUTTON
      · exact ⟨[ESEvent.execButton a.actionName],
          by simp [executeNextAction, hscan, executeAction, h1, h2,
            AT_EXEC_BUILTIN, AT_BUTTON],
          by simp [ESEvent.isExec], by simp⟩
      · exact ⟨[], by simp [executeNextAction, hscan, executeAction, h1, h2],
          by simp, by simp⟩

/- ### C2 — the lock is released before executing -/

/-- C2: whenever `ExecuteNextAction` performs an external execution step
(builtin command or button action), the registry lock is no longer held at
that point of the trace: the net lock depth of the trace prefix before the
execution event is zero. -/
theorem executeNextAction_lock_free_exec (be bu : String → Bool) (s : ServerState)
    (i : Nat) (e : ESEvent)
    (hget : ((executeNextAction be bu s).2.2)[i]? = some e)
    (hexec : e.isExec = true) :
    lockDepth (((executeNextAction be bu s).2.2).take i) = 0 := by
  obtain ⟨t3, ht, hall, hlen⟩ := executeNextAction_trace_shape be bu s
  rw [ht] at hget ⊢
  match i with
  | 0 =>
    simp at hget
    rw [← hget] at hexec
    simp [ESEvent.isExec] at hexec
  | 1 =>
    simp at hget
    rw [← hget] at hexec
    simp [ESEvent.isExec] at hexec
  | 2 =>
    simp [List.take, lockDepth]
  | (n + 3) =>
    exfalso
    have hnone : ([ESEvent.lockAcquire, ESEvent.lockRelease] ++ t3)[n + 3]? = none := by
      rw [List.getElem?_eq_none]
      simp
      omega
    rw [hnone] at hget
    exact Option.noConfusion hget

/-- A client holding a single queued builtin action. -/
def builtinClient : CEventClient :=
  { addr := 5, lastSeen := 0, packets := [],
    actions := [{ actionType := 1, actionName := "Quit" }], refreshCount := 0 }

/-- A server state with `builtinClient` registered under token 7. -/
def builtinState : ServerState :=
  { clients := [(7, builtinClient)], iMaxClients := 20, bRefreshSettings := false,
    livenessWindow := 60, pSocket := none, pPacketBuffer := none }

/-- Witness for C2: one client with one queued builtin action; the
execution event sits at index 2 of the trace, after the release. -/
theorem executeNextAction_lock_free_exec_witness :
    lockDepth (((executeNextAction (fun _ => true) (fun _ => true)
      builtinState).2.2).take 2) = 0 :=
  executeNextAction_lock_free_exec (fun _ => true) (fun _ => true)
    builtinState 2 (ESEvent.execBuiltin "Quit") (by decide) (by decide)

/- ### C3 — one action per call, executor verdict surfaced -/

/-- C3: `ExecuteNextAction` dispatches at most one action per call
(at most one external execution event in the trace) and returns the
executor's boolean verdict for that action, so an executor failure surfaces
as `false`; the dispatched event is popped from its session's queue and not
re-queued (the total number of queued actions drops by exactly one); and if
no session has a pending action the call returns `false` with the state
unchanged. -/
theorem executeNextAction_dispatch (be bu : String → Bool) (s : ServerState) :
    numExecEvents (executeNextAction be bu s).2.2 ≤ 1 ∧
    ((∀ kc ∈ s.clients, kc.2.actions = []) →
      executeNextAction be bu s = (false, s, [ESEvent.lockAcquire, ESEvent.lockRelease])) ∧
    (∀ a m2, scanClients s.clients = some (a, m2) →
      (executeNextAction be bu s).2.1.clients = m2 ∧
      totalActions m2 + 1 = totalActions s.clients ∧
      (a.actionType = AT_EXEC_BUILTIN → (executeNextAction be bu s).1 = be a.actionName) ∧
      (a.actionType = AT_BUTTON → (executeNextAction be bu s).1 = bu a.actionName)) := by
  refine ⟨?_, ?_, ?_⟩
  · obtain ⟨t3, ht, hall, hlen⟩ := executeNextAction_trace_shape be bu s
    rw [ht]
    unfold numExecEvents
    rw [List.countP_append]
    have h1 : List.countP ESEvent.isExec [ESEvent.lockAcquire, ESEvent.lockRelease] = 0 := by
      decide
    have h2 : List.countP ESEvent.isExec t3 ≤ t3.length := List.countP_le_length _
    omega
  · intro hempty
    have hscan := scanClients_of_all_empty s.clients hempty
    simp [executeNextAction, hscan]
  · intro a m2 hscan
    refine ⟨?_, scanClients_totalActions s.clients a m2 hscan, ?_, ?_⟩
    · simp [executeNextAction, hscan]
    · intro h1
      simp [executeNextAction, hscan, executeAction, h1]
    · intro h2
      have h1 : ¬ a.actionType = AT_EXEC_BUILTIN := by
        rw [h2]
        decide
      simp [executeNextAction, hscan, executeAction, h1, h2, AT_BUTTON, AT_EXEC_BUILTIN]

/-- Witness for C3: a failing builtin executor makes the call return
`false`, and the single queued action is consumed, not re-queued. -/
theorem executeNextAction_dispatch_witness :
    (executeNextAction (fun _ => false) (fun _ => true) builtinState).1 = false ∧
    totalActions (executeNextAction (fun _ => false)
        (fun _ => true) builtinState).2.1.clients + 1 =
      totalActions builtinState.clients := by
  have h := (executeNextAction_dispatch (fun _ => false) (fun _ => true) builtinState).2.2
    { actionType := 1, actionName := "Quit" }
    [(7, { builtinClient with actions := [] })] (by decide)
  refine ⟨?_, ?_⟩
  · rw [h.2.2.1 (by decide)]
  · rw [h.1]
    exact h.2.1

/- ### C10 — unknown action types are consumed silently -/

/-- A client holding a single queued action of an unrecognized type. -/
def strangeClient : CEventClient :=
  { addr := 5, lastSeen := 0, packets := [],
    actions := [{ actionType := 5, actionName := "mystery" }], refreshCount := 0 }

/-- A server state with `strangeClient` registered under token 9. -/
def strangeState : ServerState :=
  { clients := [(9, strangeClient)], iMaxClients := 20, bRefreshSettings := false,
    livenessWindow := 60, pSocket := none, pPacketBuffer := none }

/-- C10: a pending action whose type is neither `AT_EXEC_BUILTIN` nor
`AT_BUTTON` is still removed from its session's queue, no external
execution happens (the trace is just the lock pair), and the call returns
`true` (the initial value of `ret`). -/
theorem executeNextAction_unknown_type (be bu : String → Bool) (s : ServerState)
    (a : CEventAction) (m2 : ClientMap)
    (hscan : scanClients s.clients = some (a, m2))
    (h1 : a.actionType ≠ AT_EXEC_BUILTIN) (h2 : a.actionType ≠ AT_BUTTON) :
    executeNextAction be bu s =
      (true, { s with clients := m2 }, [ESEvent.lockAcquire, ESEvent.lockRelease]) ∧
    totalActions m2 + 1 = totalActions s.clients := by
  constructor
  · simp [executeNextAction, hscan, executeAction, h1, h2]
  · exact scanClients_totalActions s.clients a m2 hscan

/-- Witness for C10: the type-5 action is consumed, nothing is executed,
and the call reports `true`. -/
theorem executeNextAction_unknown_type_witness :
    executeNextAction (fun _ => false) (fun _ => false) strangeState =
      (true, { strangeState with clients := [(9, { strangeClient with actions := [] })] },
        [ESEvent.lockAcquire, ESEvent.lockRelease]) ∧
    totalActions [(9, { strangeClient with actions := [] })] + 1 =
      totalActions strangeState.clients :=
  executeNextAction_unknown_type (fun _ => false) (fun _ => false) strangeState
    { actionType := 5, actionName := "mystery" } [(9, { strangeClient with actions := [] })]
    (by decide) (by decide) (by decide)

/- ### RefreshClients -/

/-- One pass of the `RefreshClients` loop: walk the map in iteration order;
an alive client is kept (and gets `RefreshSettings` if the flag is set,
line 294-297) and the walk continues; the first dead client is erased and
the walk stops there, reporting that a removal happened (the source then
does `iter = m_clients.begin()`, i.e. starts a fresh pass). -/
def sweepPass (now window : Nat) (flag : Bool) : ClientMap → ClientMap × Bool
  | [] => ([], false)
  | (k, c) :: rest =>
    if clientAlive c now window then
      let r := sweepPass now window flag rest
      ((k, if flag then refreshSettingsClient c else c) :: r.1, r.2)
    else (rest, true)

/-- The `RefreshClients` while-loop: repeat passes while a pass removed a
client (each removal sends the iterator back to `begin()`).  Every removing
pass shrinks the map by one entry, so `m.length + 1` units of fuel always
suffice; `refreshClientsLoop_fuel_irrelevant` below proves the fuel bound
immaterial. -/
def refreshClientsLoop (now window : Nat) (flag : Bool) : Nat → ClientMap → ClientMap
  | 0, m => m
  | fuel + 1, m =>
    let r := sweepPass now window flag m
    if r.2 then refreshClientsLoop now window flag fuel r.1 else r.1

/-- `CEventServer::RefreshClients()`: run the eviction/refresh loop under
the lock, then clear `m_bRefreshSettings` (line 301). -/
def refreshClients (s : ServerState) (now : Nat) : ServerState :=
  { s with
    clients := refreshClientsLoop now s.livenessWindow s.bRefreshSettings
                (s.clients.length + 1) s.clients,
    bRefreshSettings := false }

/- ### Helper lemmas about the sweep -/

theorem sweepPass_removal_length (now window : Nat) (flag : Bool) (m : ClientMap)
    (h : (sweepPass now window flag m).2 = true) :
    (sweepPass now window flag m).1.length + 1 = m.length := by
  induction m with
  | nil => simp [sweepPass] at h
  | cons hd tl ih =>
    obtain ⟨k, c⟩ := hd
    by_cases ha : clientAlive c now window = true
    · simp [sweepPass, ha] at h ⊢
      exact ih h
    · simp [sweepPass, ha]

theorem sweepPass_no_removal (now window : Nat) (flag : Bool) (m : ClientMap)
    (h : (sweepPass now window flag m).2 = false) :
    (sweepPass now window flag m).1 =
      m.map (fun kc => (kc.1, if flag then refreshSettingsClient kc.2 else kc.2)) ∧
    ∀ kc ∈ m, clientAlive kc.2 now window = true := by
  induction m with
  | nil => simp [sweepPass]
  | cons hd tl ih =>
    obtain ⟨k, c⟩ := hd
    by_cases ha : clientAlive c now window = true
    · have h2 : (sweepPass now window flag tl).2 = false := by
        simpa [sweepPass, ha] using h
      obtain ⟨h1, hallt⟩ := ih h2
      constructor
      · simp [sweepPass, ha, h1]
      · intro kc hkc
        rcases List.mem_cons.mp hkc with heq | hmem
        · subst heq
          exact ha
        · exact hallt kc hmem
    · simp [sweepPass, ha] at h

theorem clientAlive_refreshSettings (c : CEventClient) (now window : Nat) :
    clientAlive (refreshSettingsClient c) now window = clientAlive c now window := by
  simp [clientAlive, refreshSettingsClient]

theorem sweepPass_removal_survivors (now window : Nat) (flag : Bool) (m : ClientMap)
    (h : (sweepPass now window flag m).2 = true) :
    ∀ kc ∈ m, clientAlive kc.2 now window = true →
      ∃ kc2 ∈ (sweepPass now window flag m).1, kc2.1 = kc.1 ∧
        kc.2.refreshCount ≤ kc2.2.refreshCount ∧ clientAlive kc2.2 now window = true := by
  induction m with
  | nil => simp [sweepPass] at h
  | cons hd tl ih =>
    obtain ⟨k, c⟩ := hd
    by_cases ha : clientAlive c now window = true
    · simp only [sweepPass, ha, if_true] at h ⊢
      intro kc hkc hkcAlive
      rcases List.mem_cons.mp hkc with heq | hmem
      · subst heq
        refine ⟨(k, if flag then refreshSettingsClient c else c), List.mem_cons_self _ _,
          rfl, ?_, ?_⟩
        · cases flag <;> simp [refreshSettingsClient]
        · cases flag <;> simp [clientAlive_refreshSettings, ha]
      · obtain ⟨kc2, hkc2mem, hkey, hrc, halive⟩ := ih h kc hmem hkcAlive
        exact ⟨kc2, List.mem_cons_of_mem _ hkc2mem, hkey, hrc, halive⟩
    · simp only [sweepPass, ha, Bool.false_eq_true, if_false] at h ⊢
      intro kc hkc hkcAlive
      rcases List.mem_cons.mp hkc with heq | hmem
      · subst heq
        exact absurd hkcAlive (by simp [ha])
      · exact ⟨kc, hmem, rfl, Nat.le_refl _, hkcAlive⟩

theorem refreshClientsLoop_all_alive (now window : Nat) (flag : Bool) (fuel : Nat) :
    ∀ m : ClientMap, m.length < fuel →
      ∀ kc ∈ refreshClientsLoop now window flag fuel m,
        clientAlive kc.2 now window = true := by
  induction fuel with
  | zero => intro m hm; omega
  | succ f ih =>
    intro m hm kc hkc
    by_cases hrem : (sweepPass now window flag m).2 = true
    · simp only [refreshClientsLoop, hrem, if_true] at hkc
      have hlen := sweepPass_removal_length now window flag m hrem
      exact ih (sweepPass now window flag m).1 (by omega) kc hkc
    · have hrem2 : (sweepPass now window flag m).2 = false := by
        cases h : (sweepPass now window flag m).2
        · rfl
        · exact absurd h hrem
      simp only [refreshClientsLoop, hrem2, Bool.false_eq_true, if_false] at hkc
      obtain ⟨heq, hall⟩ := sweepPass_no_removal now window flag m hrem2
      rw [heq] at hkc
      obtain ⟨kc0, hkc0, hkceq⟩ := List.mem_map.mp hkc
      rw [← hkceq]
      cases flag <;> simp [clientAlive_refreshSettings, hall kc0 hkc0]

theorem refreshClientsLoop_survivors (now window : Nat) (flag : Bool) (fuel : Nat) :
    ∀ m : ClientMap, m.length < fuel →
      ∀ kc ∈ m, clientAlive kc.2 now window = true →
        ∃ kc2 ∈ refreshClientsLoop now window flag fuel m, kc2.1 = kc.1 ∧
          kc.2.refreshCount + (if flag then 1 else 0) ≤ kc2.2.refreshCount := by
  induction fuel with
  | zero => intro m hm; omega
  | succ f ih =>
    intro m hm kc hkc hkcAlive
    by_cases hrem : (sweepPass now window flag m).2 = true
    · simp only [refreshClientsLoop, hrem, if_true]
      have hlen := sweepPass_removal_length now window flag m hrem
      obtain ⟨kc2, hkc2mem, hkey, hrc, halive⟩ :=
        sweepPass_removal_survivors now window flag m hrem kc hkc hkcAlive
      obtain ⟨kc3, hkc3mem, hkey3, hrc3⟩ :=
        ih (sweepPass now window flag m).1 (by omega) kc2 hkc2mem halive
      exact ⟨kc3, hkc3mem, hkey3.trans hkey, by omega⟩
    · have hrem2 : (sweepPass now window flag m).2 = false := by
        cases h : (sweepPass now window flag m).2
        · rfl
        · exact absurd h hrem
      simp only [refreshClientsLoop, hrem2, Bool.false_eq_true, if_false]
      obtain ⟨heq, hall⟩ := sweepPass_no_removal now window flag m hrem2
      rw [heq]
      refine ⟨(kc.1, if flag then refreshSettingsClient kc.2 else kc.2), ?_, rfl, ?_⟩
      · exact List.mem_map.mpr ⟨kc, hkc, rfl⟩
      · cases flag <;> simp [refreshSettingsClient]

/- ### C6 — the sweep: eviction is complete, but visits are not unique -/

/-- A session that is still inside its liveness window at time 100. -/
def aliveClient : CEventClient :=
  { addr := 1, lastSeen := 100, packets := [], actions := [], refreshCount := 0 }

/-- A session whose liveness window has elapsed by time 100. -/
def deadClient : CEventClient :=
  { addr := 2, lastSeen := 0, packets := [], actions := [], refreshCount := 0 }

/-- A registry holding one live and one dead session, with a settings
refresh pending. -/
def sweepState : ServerState :=
  { clients := [(1, aliveClient), (2, deadClient)], iMaxClients := 20,
    bRefreshSettings := true, livenessWindow := 60, pSocket := none, pPacketBuffer := none }

/-- C6 counterexample: in `sweepState` (live session at key 1, dead session
at key 2, refresh flag set), the sweep at time 100 applies
`RefreshSettings` to the surviving session twice — the eviction of key 2
restarts iteration from `begin()`, revisiting key 1 — refuting the claim
that no surviving session is visited more than once per sweep. -/
theorem refreshClients_double_refresh_cex :
    mapFind (refreshClients sweepState 100).clients 1 =
      some { addr := 1, lastSeen := 100, packets := [], actions := [],
             refreshCount := 2 } := by
  decide

/-- C6 (amended): each sweep removes every dead session (only live sessions
remain afterwards), and every surviving session is visited at least once
(when a refresh is pending its `RefreshSettings` is applied at least once),
but a surviving session may be visited — and refreshed — more than once
when another session is evicted in the same sweep, because eviction
restarts the iteration from the beginning; the refresh flag is cleared
after the sweep. -/
theorem refreshClients_sweep (s : ServerState) (now : Nat) :
    (∀ kc ∈ (refreshClients s now).clients,
      clientAlive kc.2 now s.livenessWindow = true) ∧
    (∀ kc ∈ s.clients, clientAlive kc.2 now s.livenessWindow = true →
      ∃ kc2 ∈ (refreshClients s now).clients, kc2.1 = kc.1 ∧
        kc.2.refreshCount + (if s.bRefreshSettings then 1 else 0) ≤ kc2.2.refreshCount) ∧
    (refreshClients s now).bRefreshSettings = false := by
  refine ⟨?_, ?_, rfl⟩
  · intro kc hkc
    exact refreshClientsLoop_all_alive now s.livenessWindow s.bRefreshSettings
      (s.clients.length + 1) s.clients (Nat.lt_succ_self _) kc hkc
  · intro kc hkc halive
    exact refreshClientsLoop_survivors now s.livenessWindow s.bRefreshSettings
      (s.clients.length + 1) s.clients (Nat.lt_succ_self _) kc hkc halive

/-- Witness for C6 (amended) at the concrete two-session registry: the
survivor at key 1 remains with at least one refresh applied, and the flag
is cleared. -/
theorem refreshClients_sweep_witness :
    (∃ kc2 ∈ (refreshClients sweepState 100).clients, kc2.1 = 1 ∧
      1 ≤ kc2.2.refreshCount) ∧
    (refreshClients sweepState 100).bRefreshSettings = false := by
  have h := refreshClients_sweep sweepState 100
  refine ⟨?_, h.2.2⟩
  obtain ⟨kc2, hmem, hkey, hrc⟩ :=
    h.2.1 (1, aliveClient) (by simp [sweepState]) (by decide)
  refine ⟨kc2, hmem, hkey, ?_⟩
  simpa [sweepState, aliveClient] using hrc

/- ### The receive loop (Run) -/

/-- What one iteration of the `Run` loop observes on the socket:
`timeout` — `listener.Listen` timed out; `readFailed` — data was signalled
but `Read` returned `-1`; `datagram` — a packet was read from `addr`;
`exn` — an exception was raised while waiting/reading. -/
inductive LoopInput where
  | timeout
  | readFailed (addr : Nat)
  | datagram (addr : Nat) (p : Packet)
  | exn
  deriving Repr, DecidableEq

/-- The three phases of one loop iteration, in the order they appear in the
source: `ProcessPacket` (routing), `ProcessEvents`, `RefreshClients`. -/
inductive Phase where
  | route
  | processEvents
  | refreshClients
  deriving Repr, DecidableEq

/-- `CEventServer::ProcessEvents()`: call every client's packet-to-action
conversion step once, under the lock. -/
def processEvents (conv : Packet → List CEventAction) (s : ServerState) : ServerState :=
  { s with clients := s.clients.map (fun kc => (kc.1, processEventsClient conv kc.2)) }

/-- One iteration of the `while (!m_bStop)` loop in `Run` (lines 191-219):
an exception breaks out of the loop at once; otherwise the packet (if any)
is routed, then `ProcessEvents()` and `RefreshClients()` run
unconditionally, in that order.  Returns the new state, the phase trace,
and whether the loop was broken. -/
def runIteration (conv : Packet → List CEventAction) (s : ServerState) (inp : LoopInput)
    (now : Nat) : ServerState × List Phase × Bool :=
  match inp with
  | LoopInput.exn => (s, [], true)
  | LoopInput.timeout =>
    (refreshClients (processEvents conv s) now,
      [Phase.processEvents, Phase.refreshClients], false)
  | LoopInput.readFailed _ =>
    (refreshClients (processEvents conv s) now,
      [Phase.processEvents, Phase.refreshClients], false)
  | LoopInput.datagram addr p =>
    (refreshClients (processEvents conv (processPacket s addr p now)) now,
      [Phase.route, Phase.processEvents, Phase.refreshClients], false)

/- ### Helper lemmas for the iteration ordering -/

theorem mapFind_mem (m : ClientMap) (k : Nat) (c : CEventClient)
    (h : mapFind m k = some c) : (k, c) ∈ m := by
  induction m with
  | nil => simp [mapFind] at h
  | cons hd tl ih =>
    obtain ⟨k1, v1⟩ := hd
    by_cases h1 : k1 = k
    · subst h1
      simp [mapFind] at h
      subst h
      exact List.mem_cons_self _ _
    · simp [mapFind, h1] at h
      exact List.mem_cons_of_mem _ (ih h)

theorem mem_mapFind (m : ClientMap) (k : Nat) (c : CEventClient)
    (h : (k, c) ∈ m) : ∃ c2, mapFind m k = some c2 := by
  induction m with
  | nil => simp at h
  | cons hd tl ih =>
    obtain ⟨k1, v1⟩ := hd
    by_cases h1 : k1 = k
    · exact ⟨v1, by simp [mapFind, h1]⟩
    · rcases List.mem_cons.mp h with heq | hmem
      · exact absurd (congrArg Prod.fst heq).symm h1
      · obtain ⟨c2, hc2⟩ := ih hmem
        exact ⟨c2, by simp [mapFind, h1, hc2]⟩

theorem mapFind_map (m : ClientMap) (f : CEventClient → CEventClient) (k : Nat) :
    mapFind (m.map (fun kc => (kc.1, f kc.2))) k = (mapFind m k).map f := by
  induction m with
  | nil => simp [mapFind]
  | cons hd tl ih =>
    obtain ⟨k1, v1⟩ := hd
    by_cases h1 : k1 = k
    · simp [mapFind, h1]
    · simp [mapFind, h1, ih]

theorem processPacket_preserves_fields (s : ServerState) (addr : Nat) (p : Packet)
    (now : Nat) :
    (processPacket s addr p now).livenessWindow = s.livenessWindow ∧
    (processPacket s addr p now).bRefreshSettings = s.bRefreshSettings := by
  by_cases hv : p.valid = false
  · simp [processPacket, hv]
  · have hv2 : p.valid = true := by
      cases h : p.valid
      · exact absurd h hv
      · rfl
    cases hfind : mapFind s.clients (routingToken p addr) with
    | none =>
      by_cases hcap : s.iMaxClients ≤ s.clients.length
      · rw [processPacket_eq_full s addr p now hv2 hfind hcap]
        exact ⟨rfl, rfl⟩
      · rw [processPacket_eq_new s addr p now hv2 hfind hcap]
        exact ⟨rfl, rfl⟩
    | some c0 =>
      rw [processPacket_eq_existing s addr p now c0 hv2 hfind]
      exact ⟨rfl, rfl⟩

theorem processPacket_lastSeen (s : ServerState) (addr : Nat) (p : Packet) (now : Nat)
    (c : CEventClient) (hvalid : p.valid = true)
    (hfind : mapFind (processPacket s addr p now).clients (routingToken p addr) = some c) :
    c.lastSeen = now := by
  cases hfind0 : mapFind s.clients (routingToken p addr) with
  | none =>
    by_cases hcap : s.iMaxClients ≤ s.clients.length
    · rw [processPacket_eq_full s addr p now hvalid hfind0 hcap] at hfind
      rw [hfind0] at hfind
      exact Option.noConfusion hfind
    · rw [processPacket_eq_new s addr p now hvalid hfind0 hcap] at hfind
      have := mapFind_mapUpdate_self
        (mapInsert s.clients (routingToken p addr) (newClient addr now))
        (routingToken p addr) (fun c => addPacket c p now)
        (newClient addr now)
        (mapFind_mapInsert_self s.clients (routingToken p addr) (newClient addr now))
      rw [this] at hfind
      cases hfind
      rfl
  | some c0 =>
    rw [processPacket_eq_existing s addr p now c0 hvalid hfind0] at hfind
    rw [mapFind_mapUpdate_self s.clients (routingToken p addr) _ c0 hfind0] at hfind
    cases hfind
    rfl

/- ### C7 — phase ordering within one loop iteration -/

/-- C7: in every completed (non-exception) iteration of the `Run` loop,
`ProcessEvents` and `RefreshClients` each run exactly once, in that order,
whether or not a datagram arrived; when a datagram is routed, routing
precedes both; and a session refreshed by the routed packet (assuming a
nonzero liveness window) still exists after the iteration's sweep — it
cannot be evicted in the iteration in which its packet arrived. -/
theorem runIteration_phases (conv : Packet → List CEventAction) (s : ServerState)
    (inp : LoopInput) (now : Nat) (hne : inp ≠ LoopInput.exn) :
    ((runIteration conv s inp now).2.1.count Phase.processEvents = 1 ∧
     (runIteration conv s inp now).2.1.count Phase.refreshClients = 1) ∧
    ((runIteration conv s inp now).2.1 = [Phase.processEvents, Phase.refreshClients] ∨
     (runIteration conv s inp now).2.1 =
       [Phase.route, Phase.processEvents, Phase.refreshClients]) ∧
    (∀ addr p, inp = LoopInput.datagram addr p → p.valid = true →
      0 < s.livenessWindow →
      ∀ c, mapFind (processPacket s addr p now).clients (routingToken p addr) = some c →
        ∃ c2, mapFind (runIteration conv s inp now).1.clients
          (routingToken p addr) = some c2) := by
  cases inp with
  | exn => exact absurd rfl hne
  | timeout =>
    refine ⟨⟨rfl, rfl⟩, Or.inl rfl, ?_⟩
    intro addr p heq
    exact absurd heq (by simp)
  | readFailed a0 =>
    refine ⟨⟨rfl, rfl⟩, Or.inl rfl, ?_⟩
    intro addr p heq
    exact absurd heq (by simp)
  | datagram addr0 p0 =>
    refine ⟨⟨rfl, rfl⟩, Or.inr rfl, ?_⟩
    intro addr p heq hvalid hwin c hfindc
    obtain ⟨haddr, hp⟩ : addr0 = addr ∧ p0 = p := by
      cases heq
      exact ⟨rfl, rfl⟩
    subst haddr
    subst hp
    have hls := processPacket_lastSeen s addr0 p0 now c hvalid hfindc
    have hfind1 : mapFind (processEvents conv (processPacket s addr0 p0 now)).clients
        (routingToken p0 addr0) = some (processEventsClient conv c) := by
      simp [processEvents, mapFind_map, hfindc]
    have hmem1 := mapFind_mem _ _ _ hfind1
    have hpres := processPacket_preserves_fields s addr0 p0 now
    have halive : clientAlive (processEventsClient conv c) now
        (processEvents conv (processPacket s addr0 p0 now)).livenessWindow = true := by
      simp only [processEvents]
      rw [hpres.1]
      simp [clientAlive, processEventsClient, hls, hwin]
    obtain ⟨⟨k2, c2x⟩, hkc2mem, hkey, _⟩ :=
      refreshClientsLoop_survivors now
        (processEvents conv (processPacket s addr0 p0 now)).livenessWindow
        (processEvents conv (processPacket s addr0 p0 now)).bRefreshSettings
        ((processEvents conv (processPacket s addr0 p0 now)).clients.length + 1)
        (processEvents conv (processPacket s addr0 p0 now)).clients
        (Nat.lt_succ_self _)
        (routingToken p0 addr0, processEventsClient conv c) hmem1 halive
    have hkey2 : k2 = routingToken p0 addr0 := hkey
    subst hkey2
    obtain ⟨c2, hc2⟩ := mem_mapFind _ (routingToken p0 addr0) c2x hkc2mem
    exact ⟨c2, by simpa [runIteration, refreshClients] using hc2⟩

/-- The session created for `samplePacket` in the C7 witness scenario. -/
def routedClient : CEventClient :=
  { addr := 5, lastSeen := 100, packets := [samplePacket], actions := [], refreshCount := 0 }

/-- Witness for C7: a concrete datagram iteration runs `ProcessEvents`
once, and the session the packet refreshed survives the sweep. -/
theorem runIteration_phases_witness :
    (runIteration (fun _ => []) sampleState (LoopInput.datagram 5 samplePacket) 100).2.1.count
        Phase.processEvents = 1 ∧
    ∃ c2, mapFind (runIteration (fun _ => []) sampleState
        (LoopInput.datagram 5 samplePacket) 100).1.clients
      (routingToken samplePacket 5) = some c2 := by
  have h := runIteration_phases (fun _ => []) sampleState
    (LoopInput.datagram 5 samplePacket) 100 (by decide)
  exact ⟨h.1.1, h.2.2 5 samplePacket rfl rfl (by decide) routedClient (by decide)⟩

/- ### Run: startup, loop, cleanup -/

/-- `CEventServer::Cleanup()` (lines 96-122): close and delete the socket,
free the packet buffer, null both fields, and destroy every client
session. -/
def cleanup (s : ServerState) : ServerState :=
  { s with pSocket := none, pPacketBuffer := none, clients := [] }

/-- Port-range validation in `Run` (lines 166-171): a configured scan range
outside [1,100] is replaced by 10. -/
def correctedPortRange (portRange : Int) : Int :=
  if portRange < 1 ∨ portRange > 100 then 10 else portRange

/-- Environment of one `Run()` invocation: whether socket creation and
buffer allocation succeed, the bind outcome as a function of the port range
actually passed to `Bind`, the configured port-range setting, and the
socket observations (with current time) of the successive loop
iterations. -/
structure RunInput where
  socketCreateOk : Bool
  mallocOk : Bool
  bind : Int → Bool
  portRange : Int
  iterations : List (LoopInput × Nat)

/-- The `while (!m_bStop)` loop of `Run`: iterations run in sequence until
the input list is exhausted (stop requested) or an iteration breaks out
(exception). -/
def runLoop (conv : Packet → List CEventAction) (s : ServerState) :
    List (LoopInput × Nat) → ServerState
  | [] => s
  | (inp, now) :: rest =>
    let r := runIteration conv s inp now
    if r.2.2 then r.1 else runLoop conv r.1 rest

/-- `CEventServer::Run()` (lines 140-224): initial `Cleanup()`; socket
creation (early return on failure, line 154); buffer allocation (early
return on failure, line 161); bind with the corrected port range (early
return on failure, line 175); then the receive loop, followed by the final
`Cleanup()` (line 223). -/
def run (conv : Packet → List CEventAction) (s : ServerState) (inp : RunInput) :
    ServerState :=
  let s0 := cleanup s
  if inp.socketCreateOk = false then s0
  else
    let s1 := { s0 with pSocket := some () }
    if inp.mallocOk = false then s1
    else
      let s2 := { s1 with pPacketBuffer := some () }
      if inp.bind (correctedPortRange inp.portRange) = false then s2
      else cleanup (runLoop conv s2 inp.iterations)

/- ### C8 — resource release on exit paths of Run -/

/-- A `Run` environment whose bind step fails (port unavailable across the
whole scan range). -/
def bindFailInput : RunInput :=
  { socketCreateOk := true, mallocOk := true, bind := fun _ => false, portRange := 10,
    iterations := [] }

/-- C8 counterexample: when `Bind` fails, `Run` returns with the socket
and the packet buffer still allocated and their fields non-null — the
early-return startup paths release nothing, refuting the claim that the
socket and buffer are released unconditionally on every exit path. -/
theorem run_bind_failure_leaks_cex :
    (run (fun _ => []) sampleState bindFailInput).pSocket = some () ∧
    (run (fun _ => []) sampleState bindFailInput).pPacketBuffer = some () := by
  decide

/-- C8 (amended): on loop exit — normal stop or exception — the final
`Cleanup()` releases the socket and buffer and nulls both fields; on the
socket-creation-failure abort both fields are null only because the
`Cleanup()` at the start of `Run` already ran and nothing had been
allocated; but on the buffer-allocation-failure abort `Run` returns with
the socket still allocated, and on the bind-failure abort with both socket
and buffer still allocated — the early-return paths release nothing (those
resources are reclaimed only by the `Cleanup()` at the start of the next
`Run`). -/
theorem run_resource_release (conv : Packet → List CEventAction) (s : ServerState)
    (inp : RunInput) :
    (inp.socketCreateOk = false →
      (run conv s inp).pSocket = none ∧ (run conv s inp).pPacketBuffer = none) ∧
    (inp.socketCreateOk = true → inp.mallocOk = false →
      (run conv s inp).pSocket = some () ∧ (run conv s inp).pPacketBuffer = none) ∧
    (inp.socketCreateOk = true → inp.mallocOk = true →
      inp.bind (correctedPortRange inp.portRange) = false →
      (run conv s inp).pSocket = some () ∧ (run conv s inp).pPacketBuffer = some ()) ∧
    (inp.socketCreateOk = true → inp.mallocOk = true →
      inp.bind (correctedPortRange inp.portRange) = true →
      (run conv s inp).pSocket = none ∧ (run conv s inp).pPacketBuffer = none) := by
  refine ⟨?_, ?_, ?_, ?_⟩
  · intro h1
    simp [run, cleanup, h1]
  · intro h1 h2
    simp [run, cleanup, h1, h2]
  · intro h1 h2 h3
    simp [run, cleanup, h1, h2, h3]
  · intro h1 h2 h3
    simp [run, cleanup, h1, h2, h3]

/-- A `Run` environment where startup succeeds and the loop ends by an
exception in its second iteration. -/
def normalRunInput : RunInput :=
  { socketCreateOk := true, mallocOk := true, bind := fun _ => true, portRange := 10,
    iterations := [(LoopInput.datagram 5 samplePacket, 100), (LoopInput.exn, 101)] }

/-- Witness for C8 (amended): a run that starts up and exits through the
exception path leaves both resource fields null. -/
theorem run_resource_release_witness :
    (run (fun _ => []) sampleState normalRunInput).pSocket = none ∧
    (run (fun _ => []) sampleState normalRunInput).pPacketBuffer = none :=
  (run_resource_release (fun _ => []) sampleState normalRunInput).2.2.2 rfl rfl rfl

/- ### C9 — out-of-range configuration self-corrects -/

/-- Result of `StartServer` as far as configuration goes: the effective
maximum-clients value and whether the server thread was created. -/
structure StartResult where
  iMaxClients : Int
  threadCreated : Bool
  deriving Repr, DecidableEq

/-- `CEventServer::StartServer()` (lines 68-88): early return when already
running; otherwise read the configured maximum-clients value, replace a
negative value by 20 (lines 81-85), and create the server thread. -/
def startServer (bRunning : Bool) (configuredMaxClients : Int) : StartResult :=
  if bRunning then { iMaxClients := configuredMaxClients, threadCreated := false }
  else
    { iMaxClients := if configuredMaxClients < 0 then 20 else configuredMaxClients,
      threadCreated := true }

/-- C9: out-of-range configuration values are corrected to safe defaults
and startup proceeds: a configured maximum-clients value below 0 is
replaced by 20 and the thread is still created (in-range values are kept);
a port scan range outside [1,100] is replaced by 10 (in-range values are
kept), so the range `Run` hands to `Bind` always lies in [1,100]. -/
theorem config_self_correction (bRunning : Bool) (mc pr : Int) :
    (bRunning = false → mc < 0 →
      startServer bRunning mc = { iMaxClients := 20, threadCreated := true }) ∧
    (bRunning = false → 0 ≤ mc →
      startServer bRunning mc = { iMaxClients := mc, threadCreated := true }) ∧
    (pr < 1 ∨ pr > 100 → correctedPortRange pr = 10) ∧
    (1 ≤ pr → pr ≤ 100 → correctedPortRange pr = pr) ∧
    (1 ≤ correctedPortRange pr ∧ correctedPortRange pr ≤ 100) := by
  refine ⟨?_, ?_, ?_, ?_, ?_⟩
  · intro h1 h2
    simp [startServer, h1, h2]
  · intro h1 h2
    have h3 : ¬ mc < 0 := by omega
    simp [startServer, h1, h3]
  · intro h
    simp [correctedPortRange, h]
  · intro h1 h2
    have h : ¬ (pr < 1 ∨ pr > 100) := by omega
    simp [correctedPortRange, h]
  · by_cases h : pr < 1 ∨ pr > 100
    · simp [correctedPortRange, h]
    · simp [correctedPortRange, h]
      omega

/-- Witness for C9: maximum-clients -5 becomes 20 with the thread created,
and port range 500 becomes 10. -/
theorem config_self_correction_witness :
    startServer false (-5) = { iMaxClients := 20, threadCreated := true } ∧
    correctedPortRange 500 = 10 :=
  ⟨(config_self_correction false (-5) 500).1 rfl (by decide),
   (config_self_correction false (-5) 500).2.2.1 (by decide)⟩

end EventServer
